import Mathlib

/-!
Shallow embedding of the Iris memory-synchronization engine
(src/training/main.py) and proofs about its specification.

The Python program maintains:
  * a transcript directory (`conversations/`, one JSON file per conversation),
  * a global memory file (`memory/global.json`: facts list + preferences map),
  * per-conversation memory files (`memory/per_conversation/conv_<id>.json`:
    summary string + notes list).

We embed the pure content of those files and the file-manipulating functions
as Lean functions over an explicit `Store` state.  The extraction oracle
(`ollama.chat`) is an input: a function returning `Option`/structured results,
`none` meaning the call raised (ExtractionFailed).  Python `dict`s become
association lists (first-match lookup, in-place update); the Python `set`
used by the full scan becomes a `Finset String`.
-/

namespace Iris

/-- A chat message `{role, content}` (class ChatMessage in the source). -/
structure ChatMessage where
  role : String
  content : String
deriving Repr, DecidableEq

/-- Per-file snapshot entry `{hash, size}` as produced by `snapshot_directory`. -/
structure FileMeta where
  hash : String
  size : Nat
deriving Repr, DecidableEq

/-- A directory snapshot: Python dict filename → {hash, size}.
Modelled as an association list; Python dicts have unique keys, which we
assume via `Nodup` hypotheses where a theorem needs it. -/
abbrev Snapshot := List (String × FileMeta)

/-- Result of `diff_snapshots`: the three filename lists. -/
structure DiffResult where
  added : List String
  removed : List String
  modified : List String
deriving Repr, DecidableEq

/-- The keys of an association list (Python `d.keys()`). -/
def keys {κ α : Type} (s : List (κ × α)) : List κ := s.map Prod.fst

/-- Python `k in d`. -/
def hasKey {κ α : Type} [BEq κ] (s : List (κ × α)) (k : κ) : Bool :=
  s.any (fun p => p.1 == k)

/-- Python `d[k]` / `d.get(k)`: first binding of `k`. -/
def lookupVal {κ α : Type} [BEq κ] (s : List (κ × α)) (k : κ) : Option α :=
  (s.find? (fun p => p.1 == k)).map Prod.snd

/-- Python `d[k] = v` on a dict, or writing file `k` in a directory:
replace the binding in place if the key exists, else append it. -/
def setVal {κ α : Type} [BEq κ] (s : List (κ × α)) (k : κ) (v : α) : List (κ × α) :=
  if s.any (fun p => p.1 == k) then s.map (fun p => if p.1 == k then (k, v) else p)
  else s ++ [(k, v)]

/-- The stored hash of filename `k` in a snapshot (`snap[k]["hash"]`). -/
def hashAt (s : Snapshot) (k : String) : Option String :=
  (lookupVal s k).map FileMeta.hash

/-- Source `diff_snapshots(old, new)`:
added = new.keys() - old.keys(); removed = old.keys() - new.keys();
modified = [k for k in old.keys() & new.keys() if old[k]["hash"] != new[k]["hash"]]. -/
def diff_snapshots (old new : Snapshot) : DiffResult where
  added := (keys new).filter (fun k => !hasKey old k)
  removed := (keys old).filter (fun k => !hasKey new k)
  modified := (keys old).filter (fun k => hasKey new k && (hashAt old k != hashAt new k))


/-! ## Filename parsing and listing -/

/-- Split a character list at every occurrence of `c`
(Python `s.split(sep)` for a one-character separator). -/
def splitOnChar (c : Char) : List Char → List (List Char)
  | [] => [[]]
  | x :: xs =>
    match splitOnChar c xs, decide (x = c) with
    | r, true => [] :: r
    | [], false => [[x]]
    | y :: ys, false => (x :: y) :: ys

/-- One decimal digit (Python `int` accepts exactly digit characters here;
conversation filenames hold non-negative decimal IDs). -/
def charDigit (c : Char) : Option Nat :=
  if c.isDigit then some (c.toNat - 48) else none

/-- Python `int(s)` restricted to non-empty strings of decimal digits,
`none` when it would raise `ValueError`. -/
def strToNat (cs : List Char) : Option Nat :=
  if cs.isEmpty then none
  else cs.foldl (fun acc c => acc.bind (fun n => (charDigit c).map (fun d => n * 10 + d))) (some 0)

/-- Source expression `int(conv_file.split("_")[1].split(".")[0])`, with
`none` for the `IndexError`/`ValueError` cases that the callers catch. -/
def parse_conv_id (f : String) : Option Nat :=
  match (splitOnChar '_' f.data).drop 1 with
  | [] => none
  | piece :: _ => strToNat ((splitOnChar '.' piece).headD [])

/-- Python `f.startswith("conv_")`. -/
def startsWith_conv (f : String) : Bool :=
  "conv_".data.isPrefixOf f.data

/-- Python `f.endswith(".json")`. -/
def endsWith_json (f : String) : Bool :=
  ".json".data.isSuffixOf f.data

/-- Basename used by `conv_path` / `conv_memory_path` for a conversation ID. -/
def conv_file_name (conv_id : Nat) : String :=
  "conv_" ++ toString conv_id ++ ".json"

/-! ## Persistent records and the store state -/

/-- Content of `memory/global.json`: `{facts: [...], preferences: {...}}`. -/
structure GlobalMemory where
  facts : List String
  preferences : List (String × String)
deriving Repr, DecidableEq

/-- Content of a per-conversation memory file: `{summary, notes}`. -/
structure ConvMemory where
  summary : String
  notes : List String
deriving Repr, DecidableEq

/-- Loaded content of a transcript file in `conversations/`.  `title` is
optional because `save_conversation` writes records without a `"title"`
field; a missing `"messages"` field and an empty one are both read back
through falsy `conv_data.get("messages")`, so both are `messages = []`. -/
structure ConvData where
  conversation : Nat
  title : Option String
  context : String
  messages : List ChatMessage
  directory : Snapshot
  directory_diff : DiffResult
deriving Repr, DecidableEq

/-- Result of `load_json(path, \x7b\x7d)` when the file is absent: every field read comes
back as its falsy default. -/
def emptyConvData : ConvData :=
  { conversation := 0, title := none, context := "", messages := [],
    directory := [], directory_diff := ⟨[], [], []⟩ }

/-- The whole file-backed state: the transcript directory, the global
memory file and the per-conversation memory directory (keyed by ID, the
file name being `conv_<id>.json`). -/
structure Store where
  convFiles : List (String × ConvData)
  globalMem : GlobalMemory
  convMems : List (Nat × ConvMemory)
deriving Repr, DecidableEq

/-- Default of `load_conv_memory` when the memory file is absent. -/
def emptyConvMemory : ConvMemory := { summary := "", notes := [] }

/-! ## Oracle results -/

/-- Parsed reply of the fact/preference extraction prompt
(`{"facts": [...], "preferences": {...}}`). -/
structure ExtractedMemory where
  facts : List String
  preferences : List (String × String)
deriving Repr, DecidableEq

/-- Parsed reply of `generate_title_and_summary` after its
`data.get("title", "New Conversation")` / `data.get("summary", "")`
defaulting. -/
structure TitleSummary where
  title : String
  summary : String
deriving Repr, DecidableEq

/-! ## Memory operations -/

/-- Endpoint `add_global_memory` (POST /memory/global): load, `facts.append(content)`,
save; all under the lock. -/
def add_global_memory (mem : GlobalMemory) (content : String) : GlobalMemory :=
  { mem with facts := mem.facts ++ [content] }

/-- Endpoint `add_conversation_memory` (POST /memory/conversation/id): load,
`notes.append(content)`, save; all under the lock. -/
def add_conversation_memory (mem : ConvMemory) (content : String) : ConvMemory :=
  { mem with notes := mem.notes ++ [content] }

/-- Source `update_conv_memory(conv_id, messages, conv_memory_data)`: call the
summarization oracle, set `memory["summary"]`, save under the lock.
`summarize messages = none` models `ollama.chat` raising, in which case
the exception propagates before any save: no record is produced. -/
def update_conv_memory (summarize : List ChatMessage → Option String)
    (messages : List ChatMessage) (conv_memory_data : ConvMemory) : Option ConvMemory :=
  (summarize messages).map (fun s => { conv_memory_data with summary := s })

/-- One directory entry of `update_global_memory_full_scan`'s loop: skip
files not named `conv_*.json`, skip transcripts with no messages, call the
extraction oracle, and on success fold facts into the accumulated set and
preferences into the accumulated dict; an oracle failure (`none`, the
`except` branch) leaves the accumulator unchanged. -/
def full_scan_step (extract : List ChatMessage → Option ExtractedMemory)
    (acc : Finset String × List (String × String)) (file : String × ConvData) :
    Finset String × List (String × String) :=
  if !(startsWith_conv file.1 && endsWith_json file.1) then acc
  else if file.2.messages.isEmpty then acc
  else
    match extract file.2.messages with
    | none => acc
    | some e =>
      (e.facts.foldl (fun s x => insert x s) acc.1,
       e.preferences.foldl (fun m kv => setVal m kv.1 kv.2) acc.2)

/-- Source `update_global_memory_full_scan`: fold over the directory listing and
write `{"facts": sorted(all_facts), "preferences": all_preferences}`. -/
def update_global_memory_full_scan (extract : List ChatMessage → Option ExtractedMemory)
    (files : List (String × ConvData)) : GlobalMemory :=
  let acc := files.foldl (full_scan_step extract) (∅, [])
  { facts := acc.1.sort (· ≤ ·), preferences := acc.2 }

/-! ## The background reconciler -/

/-- One changed file inside `background_memory_update`'s loop: parse the
conversation ID (`ValueError`/`IndexError` caught: skip), load the
transcript (`load_json(..., {})`), skip when it has no messages, load the
memory record with default `{"summary": "", "notes": []}`, and run
`update_conv_memory`; any exception there (the oracle raising) is caught
by the surrounding `except`, leaving the store unchanged. -/
def process_changed_file (summarize : List ChatMessage → Option String)
    (st : Store) (conv_file : String) : Store :=
  match parse_conv_id conv_file with
  | none => st
  | some conv_id =>
    let conv_data := (lookupVal st.convFiles conv_file).getD emptyConvData
    if conv_data.messages.isEmpty then st
    else
      let conv_memory_data := (lookupVal st.convMems conv_id).getD emptyConvMemory
      match update_conv_memory summarize conv_data.messages conv_memory_data with
      | none => st
      | some mem => { st with convMems := setVal st.convMems conv_id mem }

/-- The per-pass loop body of `background_memory_update`: process every
changed (added or modified) file in order. -/
def background_pass (summarize : List ChatMessage → Option String)
    (st : Store) (changed : List String) : Store :=
  changed.foldl (process_changed_file summarize) st

/-- Source `snapshot_directory`, abstracted over the content hash and size of a
serialized transcript file. -/
def snapshot_directory (hashFn : ConvData → String) (sizeFn : ConvData → Nat)
    (files : List (String × ConvData)) : Snapshot :=
  files.map (fun p => (p.1, { hash := hashFn p.2, size := sizeFn p.2 }))

/-- One steady-state iteration of the `background_memory_update` loop:
snapshot the directory, diff against the retained snapshot, process every
added/modified file, and retain the new snapshot. -/
def background_iteration (summarize : List ChatMessage → Option String)
    (hashFn : ConvData → String) (sizeFn : ConvData → Nat)
    (st : Store) (last_snapshot : Snapshot) : Store × Snapshot :=
  let current_snapshot := snapshot_directory hashFn sizeFn st.convFiles
  let d := diff_snapshots last_snapshot current_snapshot
  let changed := d.added ++ d.modified
  (background_pass summarize st changed, current_snapshot)

/-! ## The foreground pipeline's deferred save -/

/-- Source `update_memory_later` (the deferred post-stream task in /chat):
append the assistant reply, reload the transcript, call
`generate_title_and_summary` (`gen ... = none` models the call raising:
the caller falls back to the previous title, default `"New Conversation"`,
and an empty summary), rewrite the transcript file, and save the
per-conversation memory record as `{"summary": meta["summary"], "notes": []}`. -/
def update_memory_later (gen : List ChatMessage → Option TitleSummary)
    (st : Store) (conversation : Nat) (context : String)
    (messages : List ChatMessage) (full_response : String) : Store :=
  let messages2 := messages ++ [{ role := "assistant", content := full_response }]
  let path := conv_file_name conversation
  let conv_data := lookupVal st.convFiles path
  let meta :=
    match gen messages2 with
    | some m => m
    | none =>
      { title := ((conv_data.bind ConvData.title).getD "New Conversation"),
        summary := "" }
  let newConv : ConvData :=
    { conversation := conversation,
      title := some meta.title,
      context := context,
      messages := messages2,
      directory := (conv_data.map ConvData.directory).getD [],
      directory_diff := (conv_data.map ConvData.directory_diff).getD ⟨[], [], []⟩ }
  { st with
    convFiles := setVal st.convFiles path newConv,
    convMems := setVal st.convMems conversation { summary := meta.summary, notes := [] } }

/-! ## Conversation-ID assignment -/

/-- The `ids` list built by `next_conversation_id`: every directory entry
starting with `conv_` whose embedded ID parses (`except: pass` otherwise). -/
def parsed_conv_ids (files : List String) : List Nat :=
  files.filterMap (fun f => if startsWith_conv f then parse_conv_id f else none)

/-- Source `next_conversation_id`: `max(ids) + 1 if ids else 0`. -/
def next_conversation_id (files : List String) : Nat :=
  match parsed_conv_ids files with
  | [] => 0
  | x :: xs => xs.foldl Nat.max x + 1


/-! ## Theorems -/

theorem find?_map_update {κ α : Type} [BEq κ] [LawfulBEq κ] (s : List (κ × α)) (k : κ) (v : α)
    (h : s.any (fun p => p.1 == k) = true) :
    (s.map (fun p => if p.1 == k then (k, v) else p)).find? (fun p => p.1 == k) = some (k, v) := by
  induction s with
  | nil => simp at h
  | cons p t ih =>
    by_cases hp : (p.1 == k) = true
    · simp [List.find?, hp]
    · have ht : t.any (fun p => p.1 == k) = true := by
        simp only [List.any_cons, hp, Bool.false_or] at h
        exact h
      have hp' : (p.1 == k) = false := by rwa [Bool.not_eq_true] at hp
      simp only [List.map_cons]
      rw [if_neg hp]
      simp only [List.find?_cons, hp']
      exact ih ht

theorem find?_append_single {κ α : Type} [BEq κ] [LawfulBEq κ] (s : List (κ × α)) (k : κ) (v : α)
    (h : s.any (fun p => p.1 == k) = false) :
    (s ++ [(k, v)]).find? (fun p => p.1 == k) = some (k, v) := by
  induction s with
  | nil => simp [List.find?]
  | cons p t ih =>
    simp only [List.any_cons, Bool.or_eq_false_iff] at h
    simp only [List.cons_append, List.find?, h.1]
    exact ih h.2

/-- Writing key `k` makes a later read of `k` return the written value. -/
theorem lookupVal_setVal_self {κ α : Type} [BEq κ] [LawfulBEq κ]
    (s : List (κ × α)) (k : κ) (v : α) :
    lookupVal (setVal s k v) k = some v := by
  unfold lookupVal setVal
  split
  next h => rw [find?_map_update s k v h]; rfl
  next h =>
    rw [find?_append_single s k v (by rwa [Bool.not_eq_true] at h)]
    rfl

theorem find?_map_update_ne {κ α : Type} [BEq κ] [LawfulBEq κ]
    (s : List (κ × α)) (k k' : κ) (v : α) (h : k' ≠ k) :
    (s.map (fun p => if p.1 == k then (k, v) else p)).find? (fun p => p.1 == k') =
      s.find? (fun p => p.1 == k') := by
  have hkk : (k == k') = false := by
    simp only [beq_eq_false_iff_ne, ne_eq]
    exact Ne.symm h
  induction s with
  | nil => rfl
  | cons p t ih =>
    simp only [List.map_cons]
    by_cases hp : (p.1 == k) = true
    · have hpk : p.1 = k := by simpa using hp
      rw [if_pos hp]
      simp only [List.find?_cons, hpk, hkk]
      exact ih
    · rw [if_neg hp]
      cases hq : (p.1 == k') with
      | true => simp only [List.find?_cons, hq]
      | false =>
        simp only [List.find?_cons, hq]
        exact ih

/-- Writing key `k` leaves reads of any other key unchanged. -/
theorem lookupVal_setVal_ne {κ α : Type} [BEq κ] [LawfulBEq κ]
    (s : List (κ × α)) (k k' : κ) (v : α) (h : k' ≠ k) :
    lookupVal (setVal s k v) k' = lookupVal s k' := by
  have hkk : (k == k') = false := by
    simp only [beq_eq_false_iff_ne, ne_eq]
    exact Ne.symm h
  unfold lookupVal setVal
  split
  · rw [find?_map_update_ne s k k' v h]
  · rw [List.find?_append]
    simp [List.find?_singleton, hkk]

/-- A malformed filename (`ValueError`/`IndexError` on ID parsing) is
caught and skipped: the store is untouched. -/
theorem process_changed_file_of_parse_none (summarize : List ChatMessage → Option String)
    (st : Store) (f : String) (h : parse_conv_id f = none) :
    process_changed_file summarize st f = st := by
  unfold process_changed_file
  rw [h]

/-- A changed transcript with no messages is skipped. -/
theorem process_changed_file_of_empty (summarize : List ChatMessage → Option String)
    (st : Store) (f : String) (c : Nat) (h : parse_conv_id f = some c)
    (hm : ((lookupVal st.convFiles f).getD emptyConvData).messages.isEmpty = true) :
    process_changed_file summarize st f = st := by
  unfold process_changed_file
  rw [h]
  dsimp only
  rw [if_pos hm]

/-- If the oracle raises on a changed transcript, the catch-all handler
leaves the store untouched. -/
theorem process_changed_file_of_oracle_none (summarize : List ChatMessage → Option String)
    (st : Store) (f : String) (c : Nat) (h : parse_conv_id f = some c)
    (ho : summarize ((lookupVal st.convFiles f).getD emptyConvData).messages = none) :
    process_changed_file summarize st f = st := by
  unfold process_changed_file
  rw [h]
  dsimp only
  split
  · rfl
  · simp only [update_conv_memory, ho, Option.map_none']

/-- Processing one changed file never touches the transcript directory. -/
theorem process_changed_file_convFiles (summarize : List ChatMessage → Option String)
    (st : Store) (f : String) :
    (process_changed_file summarize st f).convFiles = st.convFiles := by
  unfold process_changed_file
  split
  · rfl
  · dsimp only
    split
    · rfl
    · split <;> rfl

/-- Processing one changed file never touches the global memory file. -/
theorem process_changed_file_globalMem (summarize : List ChatMessage → Option String)
    (st : Store) (f : String) :
    (process_changed_file summarize st f).globalMem = st.globalMem := by
  unfold process_changed_file
  split
  · rfl
  · dsimp only
    split
    · rfl
    · split <;> rfl

theorem background_pass_cons (summarize : List ChatMessage → Option String)
    (st : Store) (f : String) (rest : List String) :
    background_pass summarize st (f :: rest) =
      background_pass summarize (process_changed_file summarize st f) rest := rfl

theorem background_pass_convFiles (summarize : List ChatMessage → Option String)
    (changed : List String) : ∀ st : Store,
    (background_pass summarize st changed).convFiles = st.convFiles := by
  induction changed with
  | nil => intro st; rfl
  | cons f rest ih =>
    intro st
    rw [background_pass_cons, ih, process_changed_file_convFiles]

theorem background_pass_globalMem (summarize : List ChatMessage → Option String)
    (changed : List String) : ∀ st : Store,
    (background_pass summarize st changed).globalMem = st.globalMem := by
  induction changed with
  | nil => intro st; rfl
  | cons f rest ih =>
    intro st
    rw [background_pass_cons, ih, process_changed_file_globalMem]

/-- C3: if the oracle call raised while recomputing conversation `c`'s
summary, the previously stored per-conversation memory record for `c` is
unchanged after the whole reconciliation pass: the conversation is skipped
and no partial write occurs (the oracle is consulted before any save). -/
theorem reconciler_skips_failed_conversation (summarize : List ChatMessage → Option String)
    (st : Store) (changed : List String) (c : Nat)
    (h : ∀ f ∈ changed, parse_conv_id f = some c →
         summarize ((lookupVal st.convFiles f).getD emptyConvData).messages = none) :
    lookupVal (background_pass summarize st changed).convMems c = lookupVal st.convMems c := by
  induction changed generalizing st with
  | nil => rfl
  | cons f rest ih =>
    rw [background_pass_cons]
    have hstep : lookupVal (process_changed_file summarize st f).convMems c =
        lookupVal st.convMems c := by
      cases hp : parse_conv_id f with
      | none => rw [process_changed_file_of_parse_none _ _ _ hp]
      | some c' =>
        by_cases hc : c' = c
        · subst hc
          rw [process_changed_file_of_oracle_none _ _ _ _ hp (h f (List.mem_cons_self f rest) hp)]
        · unfold process_changed_file
          rw [hp]
          dsimp only
          split
          · rfl
          · split
            · rfl
            · dsimp only
              exact lookupVal_setVal_ne st.convMems c' c _ (fun e => hc e.symm)
    have h' : ∀ g ∈ rest, parse_conv_id g = some c →
        summarize ((lookupVal (process_changed_file summarize st f).convFiles g).getD
          emptyConvData).messages = none := by
      intro g hg hpg
      rw [process_changed_file_convFiles]
      exact h g (List.mem_cons_of_mem f hg) hpg
    rw [ih _ h', hstep]

/-- C7: a failed conversation (malformed filename or oracle failure) does
not abort a reconciliation pass: the pass over `pre ++ f :: post` equals
the pass over `pre ++ post`, so every remaining changed conversation is
still processed. -/
theorem reconciler_pass_isolates_failures (summarize : List ChatMessage → Option String)
    (st : Store) (pre post : List String) (f : String)
    (h : parse_conv_id f = none ∨
         ∀ c, parse_conv_id f = some c →
           summarize ((lookupVal st.convFiles f).getD emptyConvData).messages = none) :
    background_pass summarize st (pre ++ f :: post) =
      background_pass summarize st (pre ++ post) := by
  have hmid : ∀ st' : Store, st'.convFiles = st.convFiles →
      process_changed_file summarize st' f = st' := by
    intro st' hfiles
    cases hp : parse_conv_id f with
    | none => exact process_changed_file_of_parse_none _ _ _ hp
    | some c =>
      rcases h with h | h
      · rw [h] at hp; cases hp
      · refine process_changed_file_of_oracle_none _ _ _ c hp ?_
        rw [hfiles]
        exact h c hp
  show (pre ++ f :: post).foldl (process_changed_file summarize) st =
       (pre ++ post).foldl (process_changed_file summarize) st
  rw [List.foldl_append, List.foldl_append, List.foldl_cons]
  congr 1
  exact hmid _ (background_pass_convFiles summarize pre st)

/-- C10: one steady-state iteration of the background reconciler loop
never writes the global memory file (and never writes transcripts): only
per-conversation memory records change. -/
theorem background_iteration_preserves_global (summarize : List ChatMessage → Option String)
    (hashFn : ConvData → String) (sizeFn : ConvData → Nat)
    (st : Store) (last_snapshot : Snapshot) :
    (background_iteration summarize hashFn sizeFn st last_snapshot).1.globalMem = st.globalMem ∧
    (background_iteration summarize hashFn sizeFn st last_snapshot).1.convFiles = st.convFiles :=
  ⟨background_pass_globalMem summarize _ st, background_pass_convFiles summarize _ st⟩

/-- C9: a transcript whose messages sequence is empty (or absent — both
load back as `messages = []`) is skipped by the Reconciler's
per-conversation pass without writing any memory record for it, and
contributes nothing to the startup full scan; neither raises (the skip is
an ordinary branch, no exception path). -/
theorem empty_transcript_skipped :
    (∀ (summarize : List ChatMessage → Option String) (st : Store) (f : String) (c : Nat),
        parse_conv_id f = some c →
        ((lookupVal st.convFiles f).getD emptyConvData).messages = [] →
        process_changed_file summarize st f = st) ∧
    (∀ (extract : List ChatMessage → Option ExtractedMemory)
        (pre post : List (String × ConvData)) (n : String) (d : ConvData),
        d.messages = [] →
        update_global_memory_full_scan extract (pre ++ (n, d) :: post) =
          update_global_memory_full_scan extract (pre ++ post)) := by
  constructor
  · intro summarize st f c hp hm
    exact process_changed_file_of_empty summarize st f c hp (by rw [hm]; rfl)
  · intro extract pre post n d hm
    have hstep : ∀ acc, full_scan_step extract acc (n, d) = acc := by
      intro acc
      unfold full_scan_step
      split
      · rfl
      · rw [if_pos (by simp [hm])]
    unfold update_global_memory_full_scan
    rw [List.foldl_append, List.foldl_append, List.foldl_cons, hstep]

theorem hasKey_iff {κ α : Type} [BEq κ] [LawfulBEq κ] (s : List (κ × α)) (k : κ) :
    hasKey s k = true ↔ k ∈ keys s := by
  simp [hasKey, keys, List.any_eq_true, List.mem_map]

theorem hasKey_eq_false {κ α : Type} [BEq κ] [LawfulBEq κ] (s : List (κ × α)) (k : κ) :
    hasKey s k = false ↔ k ∉ keys s := by
  rw [← Bool.not_eq_true, not_iff_not]
  exact hasKey_iff s k

theorem mem_added_iff (old new : Snapshot) (k : String) :
    k ∈ (diff_snapshots old new).added ↔ k ∈ keys new ∧ k ∉ keys old := by
  simp only [diff_snapshots, List.mem_filter, Bool.not_eq_true']
  rw [hasKey_eq_false]

theorem mem_removed_iff (old new : Snapshot) (k : String) :
    k ∈ (diff_snapshots old new).removed ↔ k ∈ keys old ∧ k ∉ keys new := by
  simp only [diff_snapshots, List.mem_filter, Bool.not_eq_true']
  rw [hasKey_eq_false]

theorem mem_modified_iff (old new : Snapshot) (k : String) :
    k ∈ (diff_snapshots old new).modified ↔
      k ∈ keys old ∧ k ∈ keys new ∧ hashAt old k ≠ hashAt new k := by
  simp [diff_snapshots, List.mem_filter, hasKey_iff, and_assoc, bne_iff_ne]

/-- C5: `diff(old, new)` returns exactly: added = keys of new not in old,
removed = keys of old not in new, modified = keys in both whose stored
hashes differ.  (Purity/determinism is inherent: `diff_snapshots` is a
pure Lean function of its two arguments.) -/
theorem diff_snapshots_characterization (old new : Snapshot) (k : String) :
    (k ∈ (diff_snapshots old new).added ↔ k ∈ keys new ∧ k ∉ keys old) ∧
    (k ∈ (diff_snapshots old new).removed ↔ k ∈ keys old ∧ k ∉ keys new) ∧
    (k ∈ (diff_snapshots old new).modified ↔
      k ∈ keys old ∧ k ∈ keys new ∧ hashAt old k ≠ hashAt new k) :=
  ⟨mem_added_iff old new k, mem_removed_iff old new k, mem_modified_iff old new k⟩

/-- C6: for any snapshots A and B the three lists of `diff(A, B)` are
pairwise disjoint, and `diff(A, A)` has all three empty. -/
theorem diff_snapshots_disjoint_and_refl (A B : Snapshot) :
    ((diff_snapshots A B).added.Disjoint (diff_snapshots A B).removed ∧
     (diff_snapshots A B).added.Disjoint (diff_snapshots A B).modified ∧
     (diff_snapshots A B).removed.Disjoint (diff_snapshots A B).modified) ∧
    ((diff_snapshots A A).added = [] ∧
     (diff_snapshots A A).removed = [] ∧
     (diff_snapshots A A).modified = []) := by
  refine ⟨⟨?_, ?_, ?_⟩, ?_, ?_, ?_⟩
  · intro k hk hk'
    rw [mem_added_iff] at hk
    rw [mem_removed_iff] at hk'
    exact hk.2 hk'.1
  · intro k hk hk'
    rw [mem_added_iff] at hk
    rw [mem_modified_iff] at hk'
    exact hk.2 hk'.1
  · intro k hk hk'
    rw [mem_removed_iff] at hk
    rw [mem_modified_iff] at hk'
    exact hk.2 hk'.2.1
  · rw [List.eq_nil_iff_forall_not_mem]
    intro k hk
    rw [mem_added_iff] at hk
    exact hk.2 hk.1
  · rw [List.eq_nil_iff_forall_not_mem]
    intro k hk
    rw [mem_removed_iff] at hk
    exact hk.2 hk.1
  · rw [List.eq_nil_iff_forall_not_mem]
    intro k hk
    rw [mem_modified_iff] at hk
    exact hk.2.2 rfl

/-- C1, counterexample: starting from the bootstrap global memory record
`{"facts": [], "preferences": {}}`, two add-global-memory requests with the
same content produce `facts = ["b", "b"]` — a reachable state whose facts
sequence has a duplicate, so it is not strictly sorted with no duplicates:
the add-global-memory endpoint does not preserve the invariant. -/
theorem add_global_memory_breaks_sorted_invariant :
    (add_global_memory (add_global_memory (GlobalMemory.mk [] []) "b") "b").facts = ["b", "b"] ∧
    ¬ (add_global_memory (add_global_memory (GlobalMemory.mk [] []) "b") "b").facts.Nodup :=
  ⟨rfl, by decide⟩

/-- C1 (amended): the startup full scan always writes a strictly sorted,
duplicate-free facts sequence, but the add-global-memory endpoint merely
appends the submitted string at the end of the facts list, without
re-sorting or deduplicating, so it does not preserve the invariant. -/
theorem global_memory_writes_amended :
    (∀ (extract : List ChatMessage → Option ExtractedMemory) (files : List (String × ConvData)),
        List.Sorted (· < ·) (update_global_memory_full_scan extract files).facts ∧
        (update_global_memory_full_scan extract files).facts.Nodup) ∧
    (∀ (mem : GlobalMemory) (content : String),
        (add_global_memory mem content).facts = mem.facts ++ [content]) := by
  constructor
  · intro extract files
    exact ⟨Finset.sort_sorted_lt _, Finset.sort_nodup _ _⟩
  · intro mem content
    rfl

/-- C2, counterexample: a per-conversation memory record holding the note
`"keep"` is overwritten by the foreground pipeline's deferred post-stream
save with `notes = []` — the existing note is removed, so that writer is
not append-only on notes (the old notes list is not a prefix of the new
one). -/
theorem update_memory_later_discards_notes :
    lookupVal (Store.mk [] ⟨[], []⟩ [(0, ⟨"old", ["keep"]⟩)]).convMems 0 =
      some { summary := "old", notes := ["keep"] } ∧
    lookupVal ((update_memory_later (fun _ => some { title := "T", summary := "S" })
        (Store.mk [] ⟨[], []⟩ [(0, ⟨"old", ["keep"]⟩)]) 0 "default" [] "hi").convMems) 0 =
      some { summary := "S", notes := [] } ∧
    ¬ (["keep"] : List String) <+: ([] : List String) := by
  refine ⟨rfl, by decide, ?_⟩
  intro h
  simpa using h.length_le

/-- C2 (amended): the Reconciler's summary update (`update_conv_memory`)
preserves the notes list unchanged, and the add-note endpoint appends at
the end; but the foreground pipeline's deferred post-stream save always
writes the per-conversation record with an empty notes list, discarding
whatever notes were stored. -/
theorem notes_append_only_amended :
    (∀ (summarize : List ChatMessage → Option String) (messages : List ChatMessage)
        (m r : ConvMemory),
        update_conv_memory summarize messages m = some r → r.notes = m.notes) ∧
    (∀ (m : ConvMemory) (content : String),
        (add_conversation_memory m content).notes = m.notes ++ [content]) ∧
    (∀ (gen : List ChatMessage → Option TitleSummary) (st : Store) (c : Nat)
        (context : String) (messages : List ChatMessage) (resp : String),
        (lookupVal (update_memory_later gen st c context messages resp).convMems c).map
          ConvMemory.notes = some []) := by
  refine ⟨?_, ?_, ?_⟩
  · intro summarize messages m r h
    unfold update_conv_memory at h
    cases hs : summarize messages with
    | none => rw [hs] at h; cases h
    | some s => rw [hs] at h; cases h; rfl
  · intro m content
    rfl
  · intro gen st c context messages resp
    simp only [update_memory_later]
    rw [lookupVal_setVal_self]
    rfl

theorem notes_append_only_amended_witness :
    (ConvMemory.mk "s" ["n"]).notes = (ConvMemory.mk "old" ["n"]).notes ∧
    (lookupVal (update_memory_later (fun _ => none) (Store.mk [] ⟨[], []⟩ [])
        0 "default" [] "hi").convMems 0).map ConvMemory.notes = some [] :=
  ⟨notes_append_only_amended.1 (fun _ => some "s") [] (ConvMemory.mk "old" ["n"])
      (ConvMemory.mk "s" ["n"]) rfl,
   notes_append_only_amended.2.2 (fun _ => none) (Store.mk [] ⟨[], []⟩ []) 0 "default" [] "hi"⟩

theorem reconciler_skips_failed_conversation_witness :
    lookupVal (background_pass (fun _ => none)
        (Store.mk
          [("conv_0.json", ConvData.mk 0 (some "t") "default" [ChatMessage.mk "user" "hi"] [] ⟨[], [], []⟩)]
          (GlobalMemory.mk [] [])
          [(0, ConvMemory.mk "prev" [])])
        ["conv_0.json"]).convMems 0 =
      lookupVal (Store.mk
          [("conv_0.json", ConvData.mk 0 (some "t") "default" [ChatMessage.mk "user" "hi"] [] ⟨[], [], []⟩)]
          (GlobalMemory.mk [] [])
          [(0, ConvMemory.mk "prev" [])]).convMems 0 :=
  reconciler_skips_failed_conversation (fun _ => none) _ ["conv_0.json"] 0
    (fun _ _ _ => rfl)

theorem reconciler_pass_isolates_failures_witness :
    background_pass (fun _ => some "sum")
        (Store.mk [] (GlobalMemory.mk [] []) [])
        (["conv_0.json"] ++ "garbage" :: ["conv_1.json"]) =
      background_pass (fun _ => some "sum")
        (Store.mk [] (GlobalMemory.mk [] []) [])
        (["conv_0.json"] ++ ["conv_1.json"]) :=
  reconciler_pass_isolates_failures (fun _ => some "sum") _ ["conv_0.json"] ["conv_1.json"]
    "garbage" (Or.inl rfl)

theorem empty_transcript_skipped_witness :
    process_changed_file (fun _ => some "sum")
        (Store.mk [("conv_0.json", emptyConvData)] (GlobalMemory.mk [] []) []) "conv_0.json" =
      Store.mk [("conv_0.json", emptyConvData)] (GlobalMemory.mk [] []) [] ∧
    update_global_memory_full_scan (fun _ => some (ExtractedMemory.mk ["f"] []))
        [("conv_0.json", emptyConvData)] =
      update_global_memory_full_scan (fun _ => some (ExtractedMemory.mk ["f"] [])) [] :=
  ⟨empty_transcript_skipped.1 (fun _ => some "sum") _ "conv_0.json" 0 rfl rfl,
   empty_transcript_skipped.2 (fun _ => some (ExtractedMemory.mk ["f"] [])) [] []
     "conv_0.json" emptyConvData rfl⟩

/-- C8: if the title-and-summary oracle call fails during the deferred
post-stream update, the update still completes: the transcript is saved
with its previous title (default `"New Conversation"` when none was
stored) and the appended messages, and the per-conversation memory record
is saved with an empty summary — the save is not aborted. -/
theorem update_memory_later_fallback (gen : List ChatMessage → Option TitleSummary)
    (st : Store) (conversation : Nat) (context : String)
    (messages : List ChatMessage) (full_response : String)
    (h : gen (messages ++ [{ role := "assistant", content := full_response }]) = none) :
    (lookupVal (update_memory_later gen st conversation context messages full_response).convFiles
        (conv_file_name conversation)).map ConvData.title =
      some (some (((lookupVal st.convFiles (conv_file_name conversation)).bind
        ConvData.title).getD "New Conversation")) ∧
    (lookupVal (update_memory_later gen st conversation context messages full_response).convFiles
        (conv_file_name conversation)).map ConvData.messages =
      some (messages ++ [{ role := "assistant", content := full_response }]) ∧
    lookupVal (update_memory_later gen st conversation context messages full_response).convMems
        conversation = some { summary := "", notes := [] } := by
  simp only [update_memory_later, h]
  refine ⟨?_, ?_, ?_⟩
  · rw [lookupVal_setVal_self]
    rfl
  · rw [lookupVal_setVal_self]
    rfl
  · rw [lookupVal_setVal_self]

theorem update_memory_later_fallback_witness :
    (lookupVal (update_memory_later (fun _ => none) (Store.mk [] (GlobalMemory.mk [] []) [])
        0 "default" [] "hi").convFiles (conv_file_name 0)).map ConvData.title =
      some (some "New Conversation") ∧
    (lookupVal (update_memory_later (fun _ => none) (Store.mk [] (GlobalMemory.mk [] []) [])
        0 "default" [] "hi").convFiles (conv_file_name 0)).map ConvData.messages =
      some [{ role := "assistant", content := "hi" }] ∧
    lookupVal (update_memory_later (fun _ => none) (Store.mk [] (GlobalMemory.mk [] []) [])
        0 "default" [] "hi").convMems 0 = some { summary := "", notes := [] } :=
  update_memory_later_fallback (fun _ => none) (Store.mk [] (GlobalMemory.mk [] []) [])
    0 "default" [] "hi" rfl

theorem le_foldl_max_init (xs : List Nat) : ∀ x, x ≤ xs.foldl Nat.max x := by
  induction xs with
  | nil => intro x; exact Nat.le_refl x
  | cons y ys ih =>
    intro x
    exact Nat.le_trans (Nat.le_max_left x y) (ih (Nat.max x y))

theorem mem_le_foldl_max (xs : List Nat) : ∀ x, ∀ i ∈ xs, i ≤ xs.foldl Nat.max x := by
  induction xs with
  | nil => intro x i hi; cases hi
  | cons y ys ih =>
    intro x i hi
    rcases List.mem_cons.mp hi with h | h
    · rw [h]
      exact Nat.le_trans (Nat.le_max_right x y) (le_foldl_max_init ys (Nat.max x y))
    · exact ih (Nat.max x y) i h

theorem foldl_max_mem (xs : List Nat) : ∀ x, xs.foldl Nat.max x = x ∨ xs.foldl Nat.max x ∈ xs := by
  induction xs with
  | nil => intro x; exact Or.inl rfl
  | cons y ys ih =>
    intro x
    rcases ih (Nat.max x y) with h | h
    · rcases Nat.le_total x y with hxy | hyx
      · right
        rw [List.foldl_cons, h]
        have hmax : Nat.max x y = y := Nat.max_eq_right hxy
        rw [hmax]
        exact List.mem_cons_self y ys
      · left
        rw [List.foldl_cons, h]
        exact Nat.max_eq_left hyx
    · right
      exact List.mem_cons_of_mem y h

/-- C4: `next_conversation_id` returns 0 when no conversation file's ID
parses, and otherwise max(parsed IDs) + 1: it is a strict upper bound of
every parsed ID and exceeds a parsed ID by exactly one.  In particular for
a store holding exactly conversations 0 and 1, deleting conversation 0
leaves `["conv_1.json"]`, where the next assigned ID is 2 — deleted IDs
are not reused while a conversation remains. -/
theorem next_conversation_id_spec :
    (∀ files, parsed_conv_ids files = [] → next_conversation_id files = 0) ∧
    (∀ files i, i ∈ parsed_conv_ids files → i < next_conversation_id files) ∧
    (∀ files, parsed_conv_ids files ≠ [] →
      next_conversation_id files - 1 ∈ parsed_conv_ids files) ∧
    next_conversation_id ["conv_1.json"] = 2 := by
  refine ⟨?_, ?_, ?_, by decide⟩
  · intro files h
    unfold next_conversation_id
    rw [h]
  · intro files i hi
    unfold next_conversation_id
    cases hl : parsed_conv_ids files with
    | nil => rw [hl] at hi; cases hi
    | cons x xs =>
      rw [hl] at hi
      have hle : i ≤ xs.foldl Nat.max x := by
        rcases List.mem_cons.mp hi with h | h
        · rw [h]
          exact le_foldl_max_init xs x
        · exact mem_le_foldl_max xs x i h
      exact Nat.lt_succ_of_le hle
  · intro files h
    unfold next_conversation_id
    cases hl : parsed_conv_ids files with
    | nil => exact absurd hl h
    | cons x xs =>
      simp only [Nat.add_sub_cancel]
      rcases foldl_max_mem xs x with he | he
      · rw [he]
        exact List.mem_cons_self x xs
      · exact List.mem_cons_of_mem x he

theorem next_conversation_id_spec_witness :
    (1 : Nat) ∈ parsed_conv_ids ["conv_1.json"] ∧
    1 < next_conversation_id ["conv_1.json"] ∧
    parsed_conv_ids ["readme.txt"] = [] ∧
    next_conversation_id ["readme.txt"] = 0 :=
  ⟨by decide, next_conversation_id_spec.2.1 ["conv_1.json"] 1 (by decide),
   by decide, next_conversation_id_spec.1 ["readme.txt"] (by decide)⟩

end Iris
